import Mathlib

/-!
Verification of the delugerpc repository: the rencode binary codec
(src/rencode/encoder.go, src/rencode/decoder.go, src/rencode/rencode.go)
and the Deluge RPC client codec (clientCodec in the package root).

The Go code is shallowly embedded: byte streams are `List Nat` with every
element < 256 (the Go code only ever reads and writes single bytes), Go's
`int64` is `Int` restricted by hypotheses to the 64-bit range, and
`io.Writer` output is modelled as the list of bytes produced.  Recursive
walks over the dynamic value tree are written with an explicit fuel
parameter so that every definition is executable by kernel reduction;
fuel exhaustion is a distinguished outcome that no theorem identifies
with a behaviour of the Go code.
-/

set_option maxRecDepth 40000

namespace Delugerpc

/-- Dynamic value tree handled by the codec (encoder.go dispatches on the
reflected kind of the input; decoder.go produces these shapes when decoding
into an untyped slot).  Go `string` and `[]byte` both take the `str` form:
`Encoder.encodeValue` sends both to `encodeBytes`.  Floats are carried as
their IEEE-754 bit patterns.  `int` is Go's signed 64-bit domain, `uint`
the unsigned one, `big` is `math/big.Int`. -/
inductive RValue : Type where
  | null : RValue
  | bool (b : Bool) : RValue
  | int (i : Int) : RValue
  | uint (u : Nat) : RValue
  | big (i : Int) : RValue
  | f32 (bits : Nat) : RValue
  | f64 (bits : Nat) : RValue
  | str (bs : List Nat) : RValue
  | list (xs : List RValue) : RValue
  | dict (es : List (List Nat × RValue)) : RValue

/-- ASCII decimal digits of a natural number, with fuel (`n + 1` always
suffices).  Models the digit sequence produced by Go's decimal formatting
(`big.Int.String`, `fmt.Sprintf` with the d verb). -/
def natDigsAux : Nat → Nat → List Nat
  | 0, _ => []
  | f + 1, n => if n < 10 then [48 + n] else natDigsAux f (n / 10) ++ [48 + n % 10]

/-- ASCII decimal digits of a natural number. -/
def natDigs (n : Nat) : List Nat := natDigsAux (n + 1) n

/-- ASCII decimal representation of an integer, sign included: models
`big.Int.String` (and `strconv.FormatInt`). -/
def intDecStr (i : Int) : List Nat :=
  if i < 0 then 45 :: natDigs (-i).toNat else natDigs i.toNat

/-- Big-endian bytes of `x` truncated to `n` bytes: models
`binary.Write(w, binary.BigEndian, v)` on an `n`-byte fixed-width value
whose unsigned (two's-complement) representation is `x`. -/
def beBytes (n : Nat) (x : Nat) : List Nat :=
  (List.range n).map (fun k => x / 256 ^ (n - 1 - k) % 256)

/-- Encoder.encodeBytes (encoder.go lines 228-244).  The Go code computes
`byte(lv) < strFixedCount`, i.e. it truncates the length to a byte before
comparing with 64; `bs.length % 256` is exactly that truncation.  Fixed
form: one byte `128 + byte(len)` then the raw bytes.  Variable form: the
ASCII decimal length, a colon (58), then the raw bytes. -/
def encStrBytes (bs : List Nat) : List Nat :=
  if bs.length % 256 < 64 then (128 + bs.length % 256) :: bs
  else natDigs bs.length ++ (58 :: bs)

/-- Encoder.encodeInt (encoder.go lines 140-167) on the int64 value `i`.
For `-32 ≤ i < 0` the Go code emits `intNegFixedStart - 1 - byte(i)`
computed in byte arithmetic, which on that range equals `69 - i`
(e.g. `i = -5` gives byte 74).  The wider forms emit a tag byte and the
big-endian two's-complement bytes (`i % 2^w` is the unsigned
representation: Lean's Int mod with a positive modulus is non-negative). -/
def encIntBytes (i : Int) : List Nat :=
  if 0 ≤ i ∧ i < 44 then [i.toNat]
  else if -32 ≤ i ∧ i < 0 then [(69 - i).toNat]
  else if -128 ≤ i ∧ i ≤ 127 then [62, (i % 256).toNat]
  else if -32768 ≤ i ∧ i ≤ 32767 then 63 :: beBytes 2 (i % 65536).toNat
  else if -2147483648 ≤ i ∧ i ≤ 2147483647 then 64 :: beBytes 4 (i % 4294967296).toNat
  else 65 :: beBytes 8 (i % 18446744073709551616).toNat

/-- Encoder.encodeUint (encoder.go lines 169-194), the ladder up to
MaxInt64; the promotion branch for larger values lives in `encF`. -/
def encUintBytes (u : Nat) : List Nat :=
  if u < 44 then [u]
  else if u ≤ 127 then [62, u]
  else if u ≤ 32767 then 63 :: beBytes 2 u
  else if u ≤ 2147483647 then 64 :: beBytes 4 u
  else 65 :: beBytes 8 u

/-- Encoder.encodeBigInt (encoder.go lines 199-212): if the decimal
representation is longer than 64 characters the error is returned before
anything is written (first component `[]`); otherwise tag 61, the ASCII
decimal digits, and the terminator 127. -/
def encBigE (i : Int) : List Nat × Option String :=
  if 64 < (intDecStr i).length
    then ([], some "rencode: Number is longer than 64 characters")
    else (61 :: (intDecStr i ++ [127]), none)

/-- Sequential writes to the shared output: each element is (bytes written,
error) of one step; a step with an error stops all later steps, keeping the
bytes already written.  This is how the Go encoder's early `return err`
interacts with its `io.Writer`. -/
def seqWrites : List (List Nat × Option String) → List Nat × Option String
  | [] => ([], none)
  | (b, some e) :: _ => (b, some e)
  | (b, none) :: rest => ((b ++ (seqWrites rest).1 : List Nat), (seqWrites rest).2)

/-- Container epilogue shared by encodeSlice and encodeMap: the tag byte
was written first, then the body (elements resp. sorted key/value pairs);
an error in the body aborts before the terminator, otherwise the
terminator bytes (empty for the fixed-count form) close the value. -/
def closeOut (tag term : List Nat) (body : List Nat × Option String) :
    List Nat × Option String :=
  match body.2 with
  | some e => (tag ++ body.1, some e)
  | none => (tag ++ body.1 ++ term, none)

/-- Encoder.encodeMap sorts the map keys before emission
(`sort.Sort(stringValues(v.MapKeys()))`, encoder.go lines 28-33 and 89-90).
Go compares strings bytewise, which is exactly the lexicographic order on
their byte lists, the `LinearOrder (List Nat)` order used here. -/
def sortEntries (es : List (List Nat × RValue)) : List (List Nat × RValue) :=
  List.insertionSort (fun a b => a.1 ≤ b.1) es

/-- Encoder.Encode / Encoder.encodeValue (encoder.go lines 19-69) with the
output stream made explicit: result is (bytes written by this call, error).
Containers mirror encodeSlice (lines 107-131) and encodeMap (lines 75-105):
the fixed-count test truncates the length to a byte (`byte(vLen) < 64`,
resp. `< 25`), the open forms use tags 59/60 and terminator 127.  Dict
entries are emitted in sorted key order, each as encoded key then encoded
value; an error aborts the remaining writes.  encodeUint promotes values
above MaxInt64 to encodeBigInt (lines 189-196). -/
def encF : Nat → RValue → List Nat × Option String
  | 0, _ => ([], some "rencode: recursion limit")
  | fuel + 1, v =>
    match v with
    | .null => ([69], none)
    | .bool b => (if b then [67] else [68], none)
    | .int i => (encIntBytes i, none)
    | .uint u => if u ≤ 9223372036854775807 then (encUintBytes u, none) else encBigE (u : Int)
    | .big i => encBigE i
    | .f32 bits => (66 :: beBytes 4 bits, none)
    | .f64 bits => (44 :: beBytes 8 bits, none)
    | .str bs => (encStrBytes bs, none)
    | .list xs =>
      closeOut (if xs.length % 256 < 64 then [192 + xs.length % 256] else [59])
        (if xs.length % 256 < 64 then [] else [127])
        (seqWrites (xs.map (encF fuel)))
    | .dict es =>
      closeOut (if es.length % 256 < 25 then [102 + es.length % 256] else [60])
        (if es.length % 256 < 25 then [] else [127])
        (seqWrites ((sortEntries es).map
          (fun p => (encStrBytes p.1 ++ (encF fuel p.2).1, (encF fuel p.2).2))))

/-- Reference byte string for a value: the complete wire encoding that the
encoder produces when no error occurs (same recursion structure as `encF`,
errors ignored).  Used to state that a successful encode wrote the whole
value and nothing less. -/
def encP : Nat → RValue → List Nat
  | 0, _ => []
  | fuel + 1, v =>
    match v with
    | .null => [69]
    | .bool b => if b then [67] else [68]
    | .int i => encIntBytes i
    | .uint u => if u ≤ 9223372036854775807 then encUintBytes u else 61 :: (intDecStr (u : Int) ++ [127])
    | .big i => 61 :: (intDecStr i ++ [127])
    | .f32 bits => 66 :: beBytes 4 bits
    | .f64 bits => 44 :: beBytes 8 bits
    | .str bs => encStrBytes bs
    | .list xs =>
      (if xs.length % 256 < 64 then [192 + xs.length % 256] else [59])
        ++ (xs.map (encP fuel)).flatten
        ++ (if xs.length % 256 < 64 then [] else [127])
    | .dict es =>
      (if es.length % 256 < 25 then [102 + es.length % 256] else [60])
        ++ ((sortEntries es).map (fun p => encStrBytes p.1 ++ encP fuel p.2)).flatten
        ++ (if es.length % 256 < 25 then [] else [127])

/-! ## Decoder -/

/-- Decode errors.  `truncated` stands for the io.EOF / io.ErrUnexpectedEOF
errors Go's reads return on a premature end of stream; `typeMismatch` for
DecodeTypeError; `unsupported` for the "unsupported code" error
(decoder.go line 93); `badNumber` for strconv parse failures; `fuelOut`
is the artefact of the fuel bound, not a Go behaviour. -/
inductive DErr : Type where
  | truncated : DErr
  | typeMismatch : DErr
  | unsupported (c : Nat) : DErr
  | badNumber : DErr
  | fuelOut : DErr
deriving DecidableEq

/-- Read exactly `n` bytes (io.ReadFull / binary.Read): the bytes and the
rest of the stream, or `none` when fewer than `n` remain. -/
def readN (n : Nat) (bs : List Nat) : Option (List Nat × List Nat) :=
  if n ≤ bs.length then some (bs.take n, bs.drop n) else none

/-- Read up to and including the delimiter `t` (bufio.Reader.ReadBytes):
the bytes before `t` and the rest after it, or `none` if `t` never comes. -/
def readUntil (t : Nat) : List Nat → Option (List Nat × List Nat)
  | [] => none
  | b :: rest =>
    if b = t then some ([], rest)
    else
      match readUntil t rest with
      | none => none
      | some (pre, post) => some (b :: pre, post)

/-- Value of big-endian bytes. -/
def beVal (ws : List Nat) : Nat := ws.foldl (fun a b => a * 256 + b) 0

/-- Two's-complement reading of a `w`-bit unsigned value as a signed one. -/
def toSigned (w : Nat) (n : Nat) : Int :=
  if n < 2 ^ (w - 1) then (n : Int) else (n : Int) - 2 ^ w

/-- Parse an all-digits ASCII decimal (strconv.ParseInt on an unsigned
literal): `none` on an empty string or any non-digit character. -/
def parseNatDigits (bs : List Nat) : Option Nat :=
  if bs.isEmpty then none
  else if bs.all (fun b => decide (48 ≤ b) && decide (b ≤ 57)) then
    some (bs.foldl (fun a b => a * 10 + (b - 48)) 0)
  else none

/-- Parse a signed ASCII decimal: optional + or - sign, then digits
(the syntax accepted by both strconv.ParseInt and fmt.Sscan). -/
def parseIntDec (bs : List Nat) : Option Int :=
  match bs with
  | 43 :: rest => (parseNatDigits rest).map (fun n => (n : Int))
  | 45 :: rest => (parseNatDigits rest).map (fun n => -(n : Int))
  | _ => (parseNatDigits bs).map (fun n => (n : Int))

/-- Floor of the base-2 logarithm, with fuel (`n + 1` suffices). -/
def log2Aux : Nat → Nat → Nat
  | 0, _ => 0
  | f + 1, n => if n < 2 then 0 else log2Aux f (n / 2) + 1

/-- Floor of the base-2 logarithm. -/
def log2F (n : Nat) : Nat := log2Aux (n + 1) n

/-- Bit-level widening of an IEEE-754 binary32 pattern to binary64: models
Go's `float64(data)` conversion applied to the decoded float32 in
Decoder.decodeFloat.  Subnormal inputs renormalise around the position of
the most significant mantissa bit. -/
def f32ToF64 (b : Nat) : Nat :=
  let s := b / 2 ^ 31 % 2
  let e := b / 2 ^ 23 % 256
  let m := b % 2 ^ 23
  if e = 255 then s * 2 ^ 63 + 2047 * 2 ^ 52 + m * 2 ^ 29
  else if e = 0 then
    if m = 0 then s * 2 ^ 63
    else
      let k := log2F m
      s * 2 ^ 63 + (874 + k) * 2 ^ 52 + (m - 2 ^ k) * 2 ^ (52 - k)
  else s * 2 ^ 63 + (e + 896) * 2 ^ 52 + m * 2 ^ 29

/-- Outcome of decoding a wire value into Go's string type, which is what
Decoder.decodeMap does for every dict key (decoder.go lines 389-390).
A string decodes normally.  The chrNone case returns early without touching
the slot, leaving the zero value "".  A float leaves the slot untouched as
well: setFloat's `v.SetFloat` panics on a string slot and the deferred
recover swallows the panic, so setFloat returns a nil error (decoder.go
lines 253-272).  Everything else produces a DecodeTypeError. -/
def keyOf : RValue → Option (List Nat)
  | .str k => some k
  | .null => some []
  | .f32 _ => some []
  | .f64 _ => some []
  | _ => none

/-- Replace the value stored under `k`, or append: reflect's
`v.SetMapIndex` on the decoded Go map. -/
def upsert (k : List Nat) (v : RValue) : List (List Nat × RValue) → List (List Nat × RValue)
  | [] => [(k, v)]
  | (k2, v2) :: rest => if k2 = k then (k, v) :: rest else (k2, v2) :: upsert k v rest

/-- Work items of the decoder: one value (Decoder.decodeValue), the element
loop of a fixed-count list, the element loop of a terminated list
(Decoder.decodeSlice with size ≥ 0 resp. -1), and the key/value loop of a
dict with an optional remaining count (Decoder.decodeMap). -/
inductive DTask : Type where
  | value (bs : List Nat) : DTask
  | listFixed (n : Nat) (acc : List RValue) (bs : List Nat) : DTask
  | listTerm (acc : List RValue) (bs : List Nat) : DTask
  | dictLoop (remaining : Option Nat) (acc : List (List Nat × RValue)) (bs : List Nat) : DTask

/-- Decoder.decodeValue and its loops (decoder.go lines 44-94, 309-338,
340-422) decoding into an untyped slot, with fuel.  The tag dispatch
follows the Go switch and the fixed-range tests in source order.
Noteworthy points carried over exactly:
the float32 arm ignores the error of its 4-byte read (decoder.go lines
277-280: `if err := binary.Read(...); err != nil {}` has an empty body), so
a truncated float32 body consumes the rest of the stream and succeeds with
the zero bits;
the dict loop peeks for the terminator on every iteration even when a
fixed count was given (decoder.go lines 379-386);
a BigInt literal that fits in int64 is stored as an int64, otherwise as a
big.Int (setInt, decoder.go lines 190-203). -/
def decF : Nat → DTask → Except DErr (RValue × List Nat)
  | 0, _ => .error .fuelOut
  | fuel + 1, task =>
    match task with
    | .value bs =>
      match bs with
      | [] => .error .truncated
      | c :: rest =>
        if c = 69 then .ok (.null, rest)
        else if c = 68 then .ok (.bool false, rest)
        else if c = 67 then .ok (.bool true, rest)
        else if c = 62 then
          match readN 1 rest with
          | none => .error .truncated
          | some (w, rest2) => .ok (.int (toSigned 8 (beVal w)), rest2)
        else if c = 63 then
          match readN 2 rest with
          | none => .error .truncated
          | some (w, rest2) => .ok (.int (toSigned 16 (beVal w)), rest2)
        else if c = 64 then
          match readN 4 rest with
          | none => .error .truncated
          | some (w, rest2) => .ok (.int (toSigned 32 (beVal w)), rest2)
        else if c = 65 then
          match readN 8 rest with
          | none => .error .truncated
          | some (w, rest2) => .ok (.int (toSigned 64 (beVal w)), rest2)
        else if c = 61 then
          match readUntil 127 rest with
          | none => .error .truncated
          | some (ds, rest2) =>
            match parseIntDec ds with
            | none => .error .badNumber
            | some n =>
              if -9223372036854775808 ≤ n ∧ n ≤ 9223372036854775807 then .ok (.int n, rest2)
              else .ok (.big n, rest2)
        else if c = 66 then
          match readN 4 rest with
          | none => .ok (.f64 (f32ToF64 0), [])
          | some (w, rest2) => .ok (.f64 (f32ToF64 (beVal w)), rest2)
        else if c = 44 then
          match readN 8 rest with
          | none => .error .truncated
          | some (w, rest2) => .ok (.f64 (beVal w), rest2)
        else if c = 59 then decF fuel (.listTerm [] rest)
        else if c = 60 then decF fuel (.dictLoop none [] rest)
        else if c ≤ 43 then .ok (.int (c : Int), rest)
        else if 70 ≤ c ∧ c ≤ 101 then .ok (.int (-((c : Int) - 69)), rest)
        else if 128 ≤ c ∧ c ≤ 191 then
          match readN (c - 128) rest with
          | none => .error .truncated
          | some (w, rest2) => .ok (.str w, rest2)
        else if 48 ≤ c ∧ c ≤ 57 then
          match readUntil 58 rest with
          | none => .error .truncated
          | some (ds, rest2) =>
            match parseNatDigits (c :: ds) with
            | none => .error .badNumber
            | some n =>
              if 9223372036854775807 < n then .error .badNumber
              else
                match readN n rest2 with
                | none => .error .truncated
                | some (w, rest3) => .ok (.str w, rest3)
        else if 192 ≤ c ∧ c ≤ 255 then decF fuel (.listFixed (c - 192) [] rest)
        else if 102 ≤ c ∧ c ≤ 126 then decF fuel (.dictLoop (some (c - 102)) [] rest)
        else .error (.unsupported c)
    | .listFixed n acc bs =>
      match n with
      | 0 => .ok (.list acc, bs)
      | n2 + 1 =>
        match decF fuel (.value bs) with
        | .error e => .error e
        | .ok (v, rest) => decF fuel (.listFixed n2 (acc ++ [v]) rest)
    | .listTerm acc bs =>
      match bs with
      | [] => .error .truncated
      | b :: rest =>
        if b = 127 then .ok (.list acc, rest)
        else
          match decF fuel (.value (b :: rest)) with
          | .error e => .error e
          | .ok (v, rest2) => decF fuel (.listTerm (acc ++ [v]) rest2)
    | .dictLoop remaining acc bs =>
      match remaining with
      | some 0 => .ok (.dict acc, bs)
      | _ =>
        match bs with
        | [] => .error .truncated
        | b :: rest =>
          if b = 127 then .ok (.dict acc, rest)
          else
            match decF fuel (.value (b :: rest)) with
            | .error e => .error e
            | .ok (kv, rest2) =>
              match keyOf kv with
              | none => .error .typeMismatch
              | some k =>
                match decF fuel (.value rest2) with
                | .error e => .error e
                | .ok (v, rest3) =>
                  decF fuel (.dictLoop (remaining.map (fun m => m - 1)) (upsert k v acc) rest3)

/-- Decoder.Decode into an untyped slot: one value from the stream. -/
def decodeValue (fuel : Nat) (bs : List Nat) : Except DErr (RValue × List Nat) :=
  decF fuel (.value bs)

/-! ## RPC client codec -/

/-- The codec state: `respBody` is the payload stashed by
clientCodec.ReadResponseHeader between the header and body reads. -/
structure Codec : Type where
  respBody : Option RValue

/-- Go's `uint64(x)` on an int64: two's-complement reinterpretation,
used for `r.Seq = uint64(resp[1].(int64))`. -/
def toUInt64Nat (s : Int) : Nat := (s % 18446744073709551616).toNat

/-- Stashing `c.respBody = resp[2]`: a wire Null decodes to a nil
interface (Decoder.decodeValue returns early on chrNone without touching
the slot), and a nil `respBody` is indistinguishable from no stash in
`ReadResponseBody`'s `c.respBody != nil` test. -/
def stashOf : RValue → Option RValue
  | .null => none
  | v => some v

/-- A string built from raw bytes, one character per byte.  Go prints a
string's bytes verbatim; this is exact for ASCII text, which is what the
Deluge protocol sends in exception payloads. -/
def byteText (bs : List Nat) : String := String.mk (bs.map Char.ofNat)

/-- Rendering of a decoded value by fmt's v verb, as used in
`fmt.Errorf` inside clientCodec.ReadResponseHeader.  Exact for the nil
interface, bools, integers and strings — the shapes the protocol puts in
an error payload.  The float, list and dict renderings (Go would print a
shortest-form decimal resp. bracketed aggregates) are abstracted; no
theorem below depends on them. -/
def fmtV : RValue → String
  | .null => "<nil>"
  | .bool b => if b then "true" else "false"
  | .int i => toString i
  | .uint u => toString u
  | .big i => toString i
  | .str bs => byteText bs
  | .f32 bits => "float32 " ++ toString bits
  | .f64 bits => "float64 " ++ toString bits
  | .list _ => "[list]"
  | .dict _ => "[dict]"

/-- clientCodec.ReadResponseHeader after the frame has been decoded into
the list `resp`: sets the response seq from `resp[1]`, then dispatches on
the message type `resp[0]`.  The value returned is
(new codec state, seq written to the response, error returned by the
method); `.error` stands for a Go panic (failed type assertion or
out-of-range index), which the claims' well-formedness hypotheses rule
out. -/
def readResponseHeader (st : Codec) (resp : List RValue) :
    Except String (Codec × Nat × Option String) :=
  match resp with
  | v0 :: v1 :: rest =>
    match v0, v1 with
    | .int k, .int s =>
      let seq := toUInt64Nat s
      if k = 1 then
        match rest with
        | p :: _ => .ok ({ respBody := stashOf p }, seq, none)
        | [] => .error "panic: index out of range"
      else if k = 2 then
        match rest with
        | p :: _ =>
          match p with
          | .list (t :: m :: _) => .ok (st, seq, some (fmtV t ++ ": " ++ fmtV m))
          | _ => .error "panic: bad error payload"
        | [] => .error "panic: index out of range"
      else if k = 3 then .ok (st, seq, some "event is not supported")
      else .ok (st, seq, some "unknown message type")
    | _, _ => .error "panic: interface conversion"
  | _ => .error "panic: index out of range"

/-- clientCodec.ReadResponseBody: `writable` is whether the caller passed
an addressable non-nil pointer; `slot` is the current content of the
caller's output slot.  Returns (new codec state, new slot content, error).
When a stash exists it is assigned as-is; the Go method never writes to
`c.respBody`, so the state comes back unchanged in every case. -/
def readResponseBody (st : Codec) (writable : Bool) (slot : RValue) :
    Codec × RValue × Option String :=
  if !writable then (st, slot, some "Unwritable type passed into decode")
  else
    match st.respBody with
    | some p => (st, p, none)
    | none => (st, slot, none)

/-- The request message built by clientCodec.WriteRequest:
`[[seq, method, args, kwargs]]` — an outer one-element list wrapping the
4-tuple.  `r.Seq` is a uint64 and `r.ServiceMethod` a string. -/
def reqValue (seq : Nat) (method : List Nat) (args : List RValue)
    (kwargs : List (List Nat × RValue)) : RValue :=
  .list [.list [.uint seq, .str method, .list args, .dict kwargs]]

/-- clientCodec.WriteRequest with the zlib layer abstracted as `deflate`
(compression of the whole rencoded span plus the Close flush, either of
which may fail).  The first component is the list of Write calls made on
the transport connection: the request is rendered into an in-memory
buffer, so nothing reaches the transport unless every prior step
succeeded, and then exactly one Write carries the whole frame. -/
def writeRequest (fuel seq : Nat) (method : List Nat) (args : List RValue)
    (kwargs : List (List Nat × RValue))
    (deflate : List Nat → Except String (List Nat)) :
    List (List Nat) × Option String :=
  match encF fuel (reqValue seq method args kwargs) with
  | (_, some e) => ([], some e)
  | (enc, none) =>
    match deflate enc with
    | .error e => ([], some e)
    | .ok frame => ([frame], none)

/-! ## Helper lemmas -/

theorem beBytes_length (n x : Nat) : (beBytes n x).length = n := by
  simp [beBytes]

theorem natDigsAux_ne_nil : ∀ f n, n < f → natDigsAux f n ≠ [] := by
  intro f
  induction f with
  | zero => intro n h; omega
  | succ f ih =>
    intro n _
    unfold natDigsAux
    split
    · simp
    · simp

theorem natDigs_ne_nil (n : Nat) : natDigs n ≠ [] :=
  natDigsAux_ne_nil (n + 1) n (by omega)

theorem natDigsAux_length_le : ∀ f n k, n < f → n < 10 ^ k → 0 < k →
    (natDigsAux f n).length ≤ k := by
  intro f
  induction f with
  | zero => intro n k h; omega
  | succ f ih =>
    intro n k hf hp hk
    unfold natDigsAux
    split
    · simpa using hk
    · rename_i hn
      have hk2 : 2 ≤ k := by
        by_contra hc
        have hk1 : k = 1 := by omega
        subst hk1
        simp at hp
        omega
      have h10 : 10 ^ k = 10 * 10 ^ (k - 1) := by
        conv_lhs => rw [show k = 1 + (k - 1) by omega]
        rw [pow_add, pow_one]
      have hrec : n / 10 < f := by omega
      have hp2 : n / 10 < 10 ^ (k - 1) := by omega
      have hlen := ih (n / 10) (k - 1) hrec hp2 (by omega)
      simp only [List.length_append, List.length_cons, List.length_nil]
      omega

theorem natDigs_length_le (n k : Nat) (hp : n < 10 ^ k) (hk : 0 < k) :
    (natDigs n).length ≤ k :=
  natDigsAux_length_le (n + 1) n k (by omega) hp hk

theorem encIntBytes_ne_nil (i : Int) : encIntBytes i ≠ [] := by
  unfold encIntBytes
  split_ifs <;> simp

theorem encUintBytes_ne_nil (u : Nat) : encUintBytes u ≠ [] := by
  unfold encUintBytes
  split_ifs <;> simp

theorem encStrBytes_ne_nil (bs : List Nat) : encStrBytes bs ≠ [] := by
  unfold encStrBytes
  split_ifs
  · simp
  · simp [natDigs_ne_nil]

theorem seqWrites_success : ∀ rs : List (List Nat × Option String),
    (seqWrites rs).2 = none →
    (∀ r ∈ rs, r.2 = none) ∧ (seqWrites rs).1 = (rs.map Prod.fst).flatten := by
  intro rs
  induction rs with
  | nil => intro _; simp [seqWrites]
  | cons r rest ih =>
    obtain ⟨b, err⟩ := r
    cases err with
    | some e => intro h; simp [seqWrites] at h
    | none =>
      intro h
      have h2 : (seqWrites rest).2 = none := by
        simpa [seqWrites] using h
      obtain ⟨ha, hb⟩ := ih h2
      constructor
      · intro r hr
        rcases List.mem_cons.mp hr with hr | hr
        · subst hr; rfl
        · exact ha r hr
      · simp [seqWrites, hb]

theorem closeOut_success (tag term : List Nat) (body : List Nat × Option String)
    (h : (closeOut tag term body).2 = none) :
    body.2 = none ∧ closeOut tag term body = (tag ++ body.1 ++ term, none) := by
  unfold closeOut at h ⊢
  rcases body with ⟨b, err⟩
  cases err with
  | some e => simp at h
  | none => exact ⟨rfl, rfl⟩

/-! ## Claims -/

/-- C2: the claim that the encoder picks the fixed-count wire form exactly
when the count fits (string length < 64) fails on the code: encodeBytes
compares `byte(lv) < 64` after truncating the length to a byte, so a
256-byte string takes the fixed form with count byte `128 + 0`, not the
variable `256:` form the claim requires. -/
theorem encodeBytes_len256_picks_fixed_form :
    encStrBytes (List.replicate 256 7) = 128 :: List.replicate 256 7 ∧
    encF 1 (.str (List.replicate 256 7)) = (128 :: List.replicate 256 7, none) ∧
    encStrBytes (List.replicate 256 7) ≠ natDigs 256 ++ (58 :: List.replicate 256 7) :=
  ⟨rfl, rfl, by decide⟩

/-- C1: the round-trip claim fails on the code for a Bytes value of length
256 (within the claimed 0..10000 range): the encoder emits the fixed-form
tag 128 — a length-0 string — followed by the 256 raw bytes, and decoding
that encoding returns the empty string with all 256 bytes left in the
stream, not the original value. -/
theorem roundTrip_fails_on_len256_bytes :
    encF 1 (.str (List.replicate 256 0)) = (128 :: List.replicate 256 0, none) ∧
    decodeValue 1 (128 :: List.replicate 256 0) = .ok (.str [], List.replicate 256 0) ∧
    RValue.str [] ≠ RValue.str (List.replicate 256 0) := by
  refine ⟨rfl, rfl, ?_⟩
  intro h
  injection h with h2
  have h3 := congrArg List.length h2
  simp at h3

/-- C9: the claim that a premature end of stream inside any sub-parse
yields an error fails on the code for the float32 body: decodeFloat
ignores the error of its 4-byte read (decoder.go lines 277-280), so the
one-byte stream holding just the float32 tag 66 decodes successfully to
the float64 value 0.0.  The float64 arm, by contrast, propagates the
error as the claim demands. -/
theorem decode_truncated_float32_succeeds :
    decodeValue 1 [66] = .ok (.f64 (f32ToF64 0), []) ∧
    f32ToF64 0 = 0 ∧
    decodeValue 1 [44] = .error .truncated :=
  ⟨rfl, rfl, rfl⟩

/-- C5: encodeBigInt checks the length of the decimal representation
before its first write, so an over-long big integer produces the "Number
is longer than 64 characters" error with no bytes written at all (the
first component of the result is the byte output of the call). -/
theorem encodeBigInt_error_before_writes (fuel : Nat) (i : Int)
    (h : 64 < (intDecStr i).length) :
    encF (fuel + 1) (.big i) =
      ([], some "rencode: Number is longer than 64 characters") := by
  show encBigE i = _
  unfold encBigE
  simp [h]

/-- C5 witness: 10^64 has 65 decimal digits and is rejected with no
output. -/
theorem encodeBigInt_error_before_writes_w :
    64 < (intDecStr (10 ^ 64)).length ∧
    encF 1 (.big (10 ^ 64)) =
      ([], some "rencode: Number is longer than 64 characters") :=
  ⟨by decide, encodeBigInt_error_before_writes 0 (10 ^ 64) (by decide)⟩

/-- C4: encodeInt emits the narrowest form — one byte for `-32 ≤ n ≤ 43`
(the byte is `n` itself for non-negative `n` and `70 - 1 - n` = `69 - n`
for negative `n`), two bytes on the rest of the int8 range, three on the
int16 range, five on the int32 range, nine on the int64 range — and
encodeUint follows the same ladder and promotes a value above the Int64
range to the BigInt encoding (tag 61, decimal digits, terminator). -/
theorem encodeInt_narrowest (fuel : Nat) (i : Int) (u : Nat)
    (hi1 : -9223372036854775808 ≤ i) (hi2 : i ≤ 9223372036854775807)
    (hu : u < 18446744073709551616) :
    ((-32 ≤ i ∧ i ≤ 43) → (encIntBytes i).length = 1) ∧
    (0 ≤ i → i ≤ 43 → encIntBytes i = [i.toNat]) ∧
    (-32 ≤ i → i < 0 → encIntBytes i = [(69 - i).toNat]) ∧
    (-128 ≤ i → i ≤ 127 → ¬(-32 ≤ i ∧ i ≤ 43) → (encIntBytes i).length = 2) ∧
    (-32768 ≤ i → i ≤ 32767 → ¬(-128 ≤ i ∧ i ≤ 127) → (encIntBytes i).length = 3) ∧
    (-2147483648 ≤ i → i ≤ 2147483647 → ¬(-32768 ≤ i ∧ i ≤ 32767) →
      (encIntBytes i).length = 5) ∧
    (¬(-2147483648 ≤ i ∧ i ≤ 2147483647) → (encIntBytes i).length = 9) ∧
    (u ≤ 43 → encUintBytes u = [u]) ∧
    (43 < u → u ≤ 127 → (encUintBytes u).length = 2) ∧
    (u ≤ 9223372036854775807 → encF (fuel + 1) (.uint u) = (encUintBytes u, none)) ∧
    (9223372036854775808 ≤ u →
      encF (fuel + 1) (.uint u) = (61 :: (natDigs u ++ [127]), none)) := by
  refine ⟨?_, ?_, ?_, ?_, ?_, ?_, ?_, ?_, ?_, ?_, ?_⟩
  · intro h
    unfold encIntBytes
    split_ifs <;> first | (exfalso; omega) | simp
  · intro h1 h2
    unfold encIntBytes
    split_ifs <;> first | rfl | (exfalso; omega)
  · intro h1 h2
    unfold encIntBytes
    split_ifs <;> first | rfl | (exfalso; omega)
  · intro h1 h2 h3
    unfold encIntBytes
    split_ifs <;> first | (exfalso; omega) | simp
  · intro h1 h2 h3
    unfold encIntBytes
    split_ifs <;> first | (exfalso; omega) | simp [beBytes_length]
  · intro h1 h2 h3
    unfold encIntBytes
    split_ifs <;> first | (exfalso; omega) | simp [beBytes_length]
  · intro h1
    unfold encIntBytes
    split_ifs <;> first | (exfalso; omega) | simp [beBytes_length]
  · intro h
    unfold encUintBytes
    split_ifs <;> first | rfl | (exfalso; omega)
  · intro h1 h2
    unfold encUintBytes
    split_ifs <;> first | (exfalso; omega) | simp
  · intro h
    show (if u ≤ 9223372036854775807 then (encUintBytes u, none)
      else encBigE (u : Int)) = _
    rw [if_pos h]
  · intro h
    show (if u ≤ 9223372036854775807 then (encUintBytes u, none)
      else encBigE (u : Int)) = _
    rw [if_neg (by omega)]
    have hs : intDecStr (u : Int) = natDigs u := by
      unfold intDecStr
      rw [if_neg (by omega), Int.toNat_natCast]
    have hlen : (natDigs u).length ≤ 20 :=
      natDigs_length_le u 20 (by omega) (by omega)
    unfold encBigE
    rw [hs, if_neg (by omega)]

/-- C4 witness: 300 needs the three-byte int16 form, and 2^63 (just above
MaxInt64) is promoted to the BigInt encoding. -/
theorem encodeInt_narrowest_w :
    (-9223372036854775808 ≤ (300 : Int) ∧ (300 : Int) ≤ 9223372036854775807 ∧
      (9223372036854775808 : Nat) < 18446744073709551616 ∧
      -32768 ≤ (300 : Int) ∧ (300 : Int) ≤ 32767 ∧
      ¬(-128 ≤ (300 : Int) ∧ (300 : Int) ≤ 127) ∧
      (9223372036854775808 : Nat) ≤ 9223372036854775808) ∧
    (encIntBytes 300).length = 3 ∧
    encF 1 (.uint 9223372036854775808) =
      (61 :: (natDigs 9223372036854775808 ++ [127]), none) :=
  ⟨⟨by decide, by decide, by decide, by decide, by decide, by decide, by decide⟩,
   (encodeInt_narrowest 0 300 9223372036854775808
       (by decide) (by decide) (by decide)).2.2.2.2.1 (by decide) (by decide) (by decide),
   (encodeInt_narrowest 0 300 9223372036854775808
       (by decide) (by decide) (by decide)).2.2.2.2.2.2.2.2.2.2 (by decide)⟩

theorem sortEntries_sorted (es : List (List Nat × RValue)) :
    List.Sorted (fun a b : List Nat × RValue => a.1 ≤ b.1) (sortEntries es) := by
  haveI : IsTotal (List Nat × RValue) (fun a b => a.1 ≤ b.1) :=
    ⟨fun a b => le_total a.1 b.1⟩
  haveI : IsTrans (List Nat × RValue) (fun a b => a.1 ≤ b.1) :=
    ⟨fun _ _ _ h1 h2 => le_trans h1 h2⟩
  exact List.sorted_insertionSort _ es

theorem sorted_strict_of_nodup {l : List (List Nat × RValue)}
    (hs : List.Sorted (fun a b : List Nat × RValue => a.1 ≤ b.1) l)
    (hnd : (l.map Prod.fst).Nodup) :
    List.Sorted (fun a b : List Nat × RValue => a.1 < b.1) l := by
  have hne : List.Pairwise (fun a b : List Nat × RValue => a.1 ≠ b.1) l :=
    List.pairwise_map.mp hnd
  exact (hs.and hne).imp (fun h => lt_of_le_of_ne h.1 h.2)

theorem sortEntries_eq_of_perm (es1 es2 : List (List Nat × RValue))
    (hperm : es1.Perm es2) (hnd : (es1.map Prod.fst).Nodup) :
    sortEntries es1 = sortEntries es2 := by
  have hp1 := List.perm_insertionSort
    (fun a b : List Nat × RValue => a.1 ≤ b.1) es1
  have hp2 := List.perm_insertionSort
    (fun a b : List Nat × RValue => a.1 ≤ b.1) es2
  have hnd1 : ((sortEntries es1).map Prod.fst).Nodup :=
    ((hp1.map Prod.fst).nodup_iff).mpr hnd
  have hnd2 : ((sortEntries es2).map Prod.fst).Nodup :=
    ((hp2.map Prod.fst).nodup_iff).mpr (((hperm.map Prod.fst).nodup_iff).mp hnd)
  have hss1 := sorted_strict_of_nodup (sortEntries_sorted es1) hnd1
  have hss2 := sorted_strict_of_nodup (sortEntries_sorted es2) hnd2
  haveI : IsAntisymm (List Nat × RValue) (fun a b => a.1 < b.1) :=
    ⟨fun a b h1 h2 => absurd (lt_trans h1 h2) (lt_irrefl _)⟩
  exact List.eq_of_perm_of_sorted (hp1.trans (hperm.trans hp2.symm)) hss1 hss2

/-- C3: encoding is deterministic on dicts: two entry lists holding the
same key/value pairs in any order (distinct keys, as Go map entries are)
produce byte-identical encoder output, and the keys are emitted sorted in
lexicographic (bytewise) order.  Determinism for every other value shape
is immediate because the embedded encoder is a function of the value. -/
theorem encode_dict_deterministic (fuel : Nat) (es1 es2 : List (List Nat × RValue))
    (hperm : es1.Perm es2) (hnd : (es1.map Prod.fst).Nodup) :
    encF fuel (.dict es1) = encF fuel (.dict es2) ∧
    List.Sorted (fun a b : List Nat => a ≤ b) ((sortEntries es1).map Prod.fst) := by
  constructor
  · cases fuel with
    | zero => rfl
    | succ f =>
      have hsort := sortEntries_eq_of_perm es1 es2 hperm hnd
      have hlen := hperm.length_eq
      show closeOut _ _ _ = closeOut _ _ _
      rw [hsort, hlen]
  · exact List.pairwise_map.mpr (sortEntries_sorted es1)

/-- C3 witness: the two-entry dicts {b: 1, a: 2} and {a: 2, b: 1} encode
to the same bytes, keys sorted. -/
theorem encode_dict_deterministic_w :
    ([([98], RValue.int 1), ([97], RValue.int 2)].Perm
        [([97], RValue.int 2), ([98], RValue.int 1)] ∧
      (([([98], RValue.int 1), ([97], RValue.int 2)]).map Prod.fst).Nodup) ∧
    encF 2 (.dict [([98], .int 1), ([97], .int 2)]) =
      encF 2 (.dict [([97], .int 2), ([98], .int 1)]) :=
  ⟨⟨List.Perm.swap ([97], RValue.int 2) ([98], RValue.int 1) [], by decide⟩,
   (encode_dict_deterministic 2 [([98], .int 1), ([97], .int 2)]
      [([97], .int 2), ([98], .int 1)]
      (List.Perm.swap ([97], RValue.int 2) ([98], RValue.int 1) []) (by decide)).1⟩

theorem encP_ne_nil (fuel : Nat) (v : RValue) : encP (fuel + 1) v ≠ [] := by
  cases v with
  | null => simp [encP]
  | bool b => cases b <;> simp [encP]
  | int i => simpa [encP] using encIntBytes_ne_nil i
  | uint u =>
    show (if u ≤ 9223372036854775807 then encUintBytes u
      else 61 :: (intDecStr (u : Int) ++ [127])) ≠ []
    split_ifs
    · exact encUintBytes_ne_nil u
    · simp
  | big i => simp [encP]
  | f32 bits => simp [encP]
  | f64 bits => simp [encP]
  | str bs => simpa [encP] using encStrBytes_ne_nil bs
  | list xs =>
    show ((if xs.length % 256 < 64 then [192 + xs.length % 256] else [59]) ++ _ ++ _) ≠ []
    split_ifs <;> simp
  | dict es =>
    show ((if es.length % 256 < 25 then [102 + es.length % 256] else [60]) ++ _ ++ _) ≠ []
    split_ifs <;> simp

/-- C6: whenever the encoder reports success, the bytes it wrote are
exactly the complete wire encoding of the input value — never the empty
byte string and never a prefix cut short by an error (an aborted nested
encode always surfaces as an error result). -/
theorem encode_success_writes_whole_value (fuel : Nat) (v : RValue)
    (h : (encF fuel v).2 = none) :
    (encF fuel v).1 = encP fuel v ∧ encP fuel v ≠ [] := by
  induction fuel generalizing v with
  | zero => simp [encF] at h
  | succ fuel ih =>
    refine ⟨?_, encP_ne_nil fuel v⟩
    cases v with
    | null => rfl
    | bool b => cases b <;> rfl
    | int i => rfl
    | uint u =>
      show (if u ≤ 9223372036854775807 then (encUintBytes u, none)
        else encBigE (u : Int)).1 = _
      have hP : encP (fuel + 1) (.uint u) =
          (if u ≤ 9223372036854775807 then encUintBytes u
            else 61 :: (intDecStr (u : Int) ++ [127])) := rfl
      have h2 : (encF (fuel + 1) (.uint u)).2 =
          (if u ≤ 9223372036854775807 then (encUintBytes u, none)
            else encBigE (u : Int)).2 := rfl
      rw [hP]
      split_ifs with hle
      · rfl
      · show (encBigE (u : Int)).1 = _
        have h3 : (encBigE (u : Int)).2 = none := by
          rw [h2, if_neg hle] at h; exact h
        unfold encBigE at h3 ⊢
        split_ifs at h3 ⊢ with hlong
        rfl
    | big i =>
      show (encBigE i).1 = 61 :: (intDecStr i ++ [127])
      have h3 : (encBigE i).2 = none := h
      unfold encBigE at h3 ⊢
      split_ifs at h3 ⊢
      rfl
    | f32 bits => rfl
    | f64 bits => rfl
    | str bs => rfl
    | list xs =>
      have h2 : (closeOut (if xs.length % 256 < 64 then [192 + xs.length % 256] else [59])
          (if xs.length % 256 < 64 then [] else [127])
          (seqWrites (xs.map (encF fuel)))).2 = none := h
      obtain ⟨hb, heq⟩ := closeOut_success _ _ _ h2
      obtain ⟨hall, hflat⟩ := seqWrites_success _ hb
      show (closeOut _ _ _).1 = _
      rw [heq]
      show _ ++ (seqWrites (xs.map (encF fuel))).1 ++ _ = _
      rw [hflat, List.map_map]
      have hmaps : xs.map (Prod.fst ∘ encF fuel) = xs.map (encP fuel) := by
        apply List.map_congr_left
        intro x hx
        exact (ih x (hall (encF fuel x) (List.mem_map_of_mem (encF fuel) hx))).1
      rw [hmaps]
      rfl
    | dict es =>
      have h2 : (closeOut (if es.length % 256 < 25 then [102 + es.length % 256] else [60])
          (if es.length % 256 < 25 then [] else [127])
          (seqWrites ((sortEntries es).map
            (fun p => (encStrBytes p.1 ++ (encF fuel p.2).1, (encF fuel p.2).2))))).2 =
          none := h
      obtain ⟨hb, heq⟩ := closeOut_success _ _ _ h2
      obtain ⟨hall, hflat⟩ := seqWrites_success _ hb
      show (closeOut _ _ _).1 = _
      rw [heq]
      show _ ++ (seqWrites ((sortEntries es).map
        (fun p => (encStrBytes p.1 ++ (encF fuel p.2).1, (encF fuel p.2).2)))).1 ++ _ = _
      rw [hflat, List.map_map]
      have hmaps : (sortEntries es).map
          (Prod.fst ∘ fun p => (encStrBytes p.1 ++ (encF fuel p.2).1, (encF fuel p.2).2)) =
          (sortEntries es).map (fun p => encStrBytes p.1 ++ encP fuel p.2) := by
        apply List.map_congr_left
        intro p hp
        have hpmem : (encStrBytes p.1 ++ (encF fuel p.2).1, (encF fuel p.2).2) ∈
            (sortEntries es).map
              (fun p => (encStrBytes p.1 ++ (encF fuel p.2).1, (encF fuel p.2).2)) :=
          List.mem_map_of_mem _ hp
        have h5 := hall _ hpmem
        have hvnone : (encF fuel p.2).2 = none := h5
        have := (ih p.2 hvnone).1
        simp [Function.comp, this]
      rw [hmaps]
      rfl

/-- C6 witness: encoding the one-element list [1] succeeds and the bytes
written are its complete two-byte encoding. -/
theorem encode_success_writes_whole_value_w :
    (encF 2 (.list [.int 1])).2 = none ∧
    ((encF 2 (.list [.int 1])).1 = encP 2 (.list [.int 1]) ∧
      encP 2 (.list [.int 1]) ≠ []) :=
  ⟨rfl, encode_success_writes_whole_value 2 (.list [.int 1]) rfl⟩

/-- C7: on a decoded response of the form [kind, seq, payload],
ReadResponseHeader stores `seq` into the response header in every
non-panicking outcome, and dispatches on the kind: 1 succeeds and stashes
the payload; 2 returns the error "<exception_type>: <exception_msg>"
built from the first two elements of the payload list; 3 returns
"event is not supported"; any other kind returns "unknown message type". -/
theorem readResponseHeader_dispatch (st : Codec) (k s : Int) (p : RValue) :
    (∀ st2 q e, readResponseHeader st [.int k, .int s, p] = .ok (st2, q, e) →
      q = toUInt64Nat s) ∧
    (k = 1 → readResponseHeader st [.int k, .int s, p] =
      .ok ({ respBody := stashOf p }, toUInt64Nat s, none)) ∧
    (k = 2 → ∀ t m ms, p = .list (t :: m :: ms) →
      readResponseHeader st [.int k, .int s, p] =
        .ok (st, toUInt64Nat s, some (fmtV t ++ ": " ++ fmtV m))) ∧
    (k = 3 → readResponseHeader st [.int k, .int s, p] =
      .ok (st, toUInt64Nat s, some "event is not supported")) ∧
    (k ≠ 1 → k ≠ 2 → k ≠ 3 → readResponseHeader st [.int k, .int s, p] =
      .ok (st, toUInt64Nat s, some "unknown message type")) := by
  have hred : readResponseHeader st [.int k, .int s, p] =
      (if k = 1 then .ok ({ respBody := stashOf p }, toUInt64Nat s, none)
       else if k = 2 then
         (match p with
          | .list (t :: m :: _) => .ok (st, toUInt64Nat s, some (fmtV t ++ ": " ++ fmtV m))
          | _ => .error "panic: bad error payload")
       else if k = 3 then .ok (st, toUInt64Nat s, some "event is not supported")
       else .ok (st, toUInt64Nat s, some "unknown message type")) := rfl
  refine ⟨?_, ?_, ?_, ?_, ?_⟩
  · intro st2 q e hok
    rw [hred] at hok
    split_ifs at hok <;>
      first
        | (injection hok with h1; injection h1 with h2 h3; injection h3 with h4 h5;
            exact h4.symm)
        | (split at hok <;> first
            | (injection hok with h1; injection h1 with h2 h3; injection h3 with h4 h5;
                exact h4.symm)
            | exact absurd hok (by simp))
  · intro hk
    subst hk
    rfl
  · intro hk t m ms hp
    subst hk
    subst hp
    rfl
  · intro hk
    subst hk
    rw [hred, if_neg (by decide), if_neg (by decide), if_pos rfl]
  · intro h1 h2 h3
    rw [hred, if_neg h1, if_neg h2, if_neg h3]

/-- C7 witness: an error response (kind 2, seq 5) with exception type "A"
and message "B" sets seq and yields the formatted error. -/
theorem readResponseHeader_dispatch_w :
    ((2 : Int) = 2 ∧ RValue.list [.str [65], .str [66]] =
      RValue.list (.str [65] :: .str [66] :: [])) ∧
    readResponseHeader ⟨none⟩ [.int 2, .int 5, .list [.str [65], .str [66]]] =
      .ok (⟨none⟩, toUInt64Nat 5, some (fmtV (.str [65]) ++ ": " ++ fmtV (.str [66]))) :=
  ⟨⟨rfl, rfl⟩,
   (readResponseHeader_dispatch ⟨none⟩ 2 5 (.list [.str [65], .str [66]])).2.2.1 rfl
     (.str [65]) (.str [66]) [] rfl⟩

/-- C8 counterexample: the claim says ReadResponseBody clears the stash so
a payload is consumed exactly once, but the Go method never writes
`c.respBody`: after delivering the stashed payload the codec state still
holds it, and a second call would deliver it again. -/
theorem readResponseBody_keeps_stash :
    readResponseBody ⟨some (.int 7)⟩ true (.int 0) = (⟨some (.int 7)⟩, .int 7, none) ∧
    (readResponseBody ⟨some (.int 7)⟩ true (.int 0)).1.respBody ≠ none :=
  ⟨rfl, fun h => Option.noConfusion h⟩

/-- C8 (amended): when a stash exists ReadResponseBody assigns it to the
output slot as-is and succeeds, but the stash is not cleared — the codec
state comes back unchanged, so the stash persists until the next kind-1
header overwrites it; with no stash the call succeeds and leaves the slot
untouched; a non-writable slot is rejected with the unwritable-type
error. -/
theorem readResponseBody_assigns_without_clearing (st : Codec) (slot : RValue) :
    readResponseBody st true slot = (st, st.respBody.getD slot, none) ∧
    readResponseBody st false slot = (st, slot, some "Unwritable type passed into decode") := by
  obtain ⟨rb⟩ := st
  cases rb <;> simp [readResponseBody]

/-- C8 witness: with no stash the slot is left untouched. -/
theorem readResponseBody_assigns_without_clearing_w :
    readResponseBody ⟨none⟩ true (.int 3) = (⟨none⟩, .int 3, none) :=
  (readResponseBody_assigns_without_clearing ⟨none⟩ (.int 3)).1

/-- C10: WriteRequest renders the request into an in-memory buffer, so if
the rencode encoding of `[[seq, method, args, kwargs]]` fails, or closing
the zlib stream fails, the transport sees no Write call at all; on
success the complete compressed frame reaches the transport in exactly
one Write call. -/
theorem writeRequest_transport_atomic (fuel seq : Nat) (method : List Nat)
    (args : List RValue) (kwargs : List (List Nat × RValue))
    (deflate : List Nat → Except String (List Nat)) :
    (∀ e, (encF fuel (reqValue seq method args kwargs)).2 = some e →
      writeRequest fuel seq method args kwargs deflate = ([], some e)) ∧
    (∀ enc e, encF fuel (reqValue seq method args kwargs) = (enc, none) →
      deflate enc = .error e →
      writeRequest fuel seq method args kwargs deflate = ([], some e)) ∧
    (∀ enc frame, encF fuel (reqValue seq method args kwargs) = (enc, none) →
      deflate enc = .ok frame →
      writeRequest fuel seq method args kwargs deflate = ([frame], none)) := by
  refine ⟨?_, ?_, ?_⟩
  · intro e he
    unfold writeRequest
    rcases hc : encF fuel (reqValue seq method args kwargs) with ⟨enc0, err0⟩
    rw [hc] at he
    cases err0 with
    | none => simp at he
    | some e2 =>
      have : e2 = e := by simpa using he
      subst this
      rfl
  · intro enc e hc hd
    have hstep : writeRequest fuel seq method args kwargs deflate =
        (match deflate enc with
         | .error e2 => ([], some e2)
         | .ok frame => ([frame], none)) := by
      unfold writeRequest
      rw [hc]
    rw [hstep, hd]
  · intro enc frame hc hd
    have hstep : writeRequest fuel seq method args kwargs deflate =
        (match deflate enc with
         | .error e2 => ([], some e2)
         | .ok frame2 => ([frame2], none)) := by
      unfold writeRequest
      rw [hc]
    rw [hstep, hd]

/-- C10 witness: a concrete request (seq 1, method "d", no args, no
kwargs) whose frame — with the identity compressor — reaches the
transport as the single Write of its full encoding. -/
theorem writeRequest_transport_atomic_w :
    encF 5 (reqValue 1 [100] [] []) = ([193, 196, 1, 129, 100, 192, 102], none) ∧
    writeRequest 5 1 [100] [] [] (fun l => .ok l) =
      ([[193, 196, 1, 129, 100, 192, 102]], none) :=
  ⟨rfl, (writeRequest_transport_atomic 5 1 [100] [] [] (fun l => .ok l)).2.2
    [193, 196, 1, 129, 100, 192, 102] [193, 196, 1, 129, 100, 192, 102] rfl rfl⟩

end Delugerpc
